import Mathlib

/-!
Verification development for the gzp parallel block-compression library.

The definitions below are a shallow embedding of the library's core code:

* `src/check.rs` — the checksum adapters (`Crc32`, `Adler32`), where the
  underlying CRC-32 (flate2/crc32fast, gzip polynomial, reflected,
  init/xorout `0xFFFFFFFF`) and Adler-32 (zlib `adler32`/`adler32_combine`)
  algorithms are modelled directly, since the repository delegates to those
  external codeces whose wire behaviour is fixed and public.
* `src/bgzf.rs`, `src/mgzip.rs` — block framing, sync writer/reader.
* `src/deflate.rs` — the `FormatSpec` implementations.
* `src/par/compress.rs`, `src/par/decompress.rs` — the parallel pipeline,
  modelled as the sequential composition the channel ordering enforces.

Machine bytes are `Nat` masked with `% 256` at the points where Rust uses
`u8`, and 32-bit fields use explicit `% 2^32`.  The DEFLATE codec itself is
out of scope for the library (a black-box block primitive), so compression
routines are parameterised by an oracle `deflate / inflate : List Nat →
List Nat`.
-/

set_option maxRecDepth 4000

namespace Gzp

/-- Little-endian byte serialisation of `v` on `n` bytes, as the `n >= 1`
little-endian branch of `FormatSpec::to_bytes` (`src/lib.rs`) and
`byteorder::LittleEndian` writes behave: byte `i` is `(v >> 8*i) as u8`. -/
def leBytes (n v : Nat) : List Nat :=
  (List.range n).map (fun i => v / 256 ^ i % 256)

/-- Big-endian byte serialisation of `v` on `n` bytes, the negative
`num_bytes` branch of `FormatSpec::to_bytes` (`src/lib.rs`). -/
def beBytes (n v : Nat) : List Nat :=
  (List.range n).map (fun i => v / 256 ^ (n - 1 - i) % 256)

/-- Two little-endian bytes (`write_u16::<LittleEndian>`). -/
def u16le (v : Nat) : List Nat := leBytes 2 v

/-- Four little-endian bytes (`write_u32::<LittleEndian>`). -/
def u32le (v : Nat) : List Nat := leBytes 4 v

/-- Read a `u32` from the first four bytes of a list, little-endian
(`LittleEndian::read_u32`). -/
def readU32LE4 : List Nat → Nat
  | b0 :: b1 :: b2 :: b3 :: _ => b0 + 256 * b1 + 65536 * b2 + 16777216 * b3
  | _ => 0

/-- Read a `u16` from the first two bytes of a list, little-endian
(`LittleEndian::read_u16`). -/
def readU16LE2 : List Nat → Nat
  | b0 :: b1 :: _ => b0 + 256 * b1
  | _ => 0

theorem length_leBytes (n v : Nat) : (leBytes n v).length = n := by
  simp [leBytes]

theorem length_u16le (v : Nat) : (u16le v).length = 2 := length_leBytes 2 v

theorem length_u32le (v : Nat) : (u32le v).length = 4 := length_leBytes 4 v

theorem readU32LE4_u32le (v : Nat) (h : v < 4294967296) (tail : List Nat) :
    readU32LE4 (u32le v ++ tail) = v := by
  simp only [u32le, leBytes, List.range_succ, List.range_zero, List.map_append,
    List.map_cons, List.map_nil]
  simp only [List.nil_append, List.cons_append, List.append_assoc, readU32LE4]
  omega

/-! ### CRC-32 (gzip polynomial, as computed by flate2 / crc32fast)

The reflected bit-at-a-time algorithm: the running state is xored with the
input byte, then shifted eight times through the polynomial
`0xEDB88320`; the initial state and the final xor are `0xFFFFFFFF`. -/

/-- One bit step of the reflected CRC-32: shift right, conditionally xoring
the reversed gzip polynomial. -/
def crcStep (s : Nat) : Nat :=
  if s % 2 = 1 then s / 2 ^^^ 0xEDB88320 else s / 2

/-- Absorb one input byte (masked to `u8`) into the CRC state. -/
def crcByte (s b : Nat) : Nat := crcStep^[8] (s ^^^ b % 256)

/-- Raw CRC state after absorbing a byte list, starting from state `s`. -/
def crcRaw (s : Nat) (l : List Nat) : Nat := l.foldl crcByte s

/-- The CRC-32 checksum of a byte list, with init and xorout `0xFFFFFFFF`,
exactly the value `flate2::Crc::sum` reports after `update`. -/
def crc32 (l : List Nat) : Nat := crcRaw 0xFFFFFFFF l ^^^ 0xFFFFFFFF

/-- Absorbing `n` zero bytes into the CRC state; multiplying by `x^(8n)`
in the CRC ring.  This is the mathematical operation zlib's
`crc32_combine` performs on the first summand. -/
def crcShiftZeros (n s : Nat) : Nat := (fun t => crcByte t 0)^[n] s

/-- The value computed by `crc32_combine(c1, c2, n2)` (flate2's
`Crc::combine` for the sums): shift the first CRC past `n2` zero bytes and
xor the second. -/
def crc32Combine (c1 c2 n2 : Nat) : Nat := crcShiftZeros n2 c1 ^^^ c2

/-- Model of `check::Crc32` (`src/check.rs`): the current checksum plus the
number of input bytes (a `u32`, hence `% 2^32`). -/
structure Crc32C where
  sum : Nat
  amount : Nat
  deriving DecidableEq

/-- The state `flate2::Crc::new` starts from. -/
def Crc32C.fresh : Crc32C := ⟨0, 0⟩

/-- Model of `Crc32::update`: feed bytes into the running CRC; the byte
count accumulates as a `u32`. -/
def Crc32C.update (c : Crc32C) (l : List Nat) : Crc32C :=
  ⟨crcRaw (c.sum ^^^ 0xFFFFFFFF) l ^^^ 0xFFFFFFFF,
   (c.amount + l.length) % 4294967296⟩

/-- Model of `Crc32::combine` (`src/check.rs` delegating to
`flate2::Crc::combine`): fold the other CRC over adjacent ranges and add
the byte counts. -/
def Crc32C.combine (c o : Crc32C) : Crc32C :=
  ⟨crc32Combine c.sum o.sum o.amount, (c.amount + o.amount) % 4294967296⟩

/-- The per-range checksum a worker computes: a fresh check updated with
the range's bytes. -/
def Crc32C.ofList (l : List Nat) : Crc32C := Crc32C.fresh.update l

/-! ### Adler-32 (zlib), as used for the zlib format -/

/-- Process one byte (masked to `u8`) of the Adler-32 state `(s1, s2)`,
both kept reduced modulo the base 65521; zlib defers the reductions in
batches but computes the same values. -/
def adlerStepB (p : Nat × Nat) (b : Nat) : Nat × Nat :=
  ((p.1 + b % 256) % 65521, (p.2 + (p.1 + b % 256) % 65521) % 65521)

/-- Fold the Adler-32 state over a byte list. -/
def adlerFold (p : Nat × Nat) (l : List Nat) : Nat × Nat := l.foldl adlerStepB p

/-- Model of `libz adler32(sum, buf, len)` on the packed `u32`
representation `s2 << 16 | s1`. -/
def adlerUpdate (sum : Nat) (l : List Nat) : Nat :=
  let p := adlerFold (sum % 65536, sum / 65536 % 65536) l
  p.2 * 65536 + p.1

/-- Model of `libz adler32_combine(a1, a2, len2)`: the mathematical
function the zlib staged conditional subtractions compute on valid
checksums. -/
def adlerCombine (a1 a2 len2 : Nat) : Nat :=
  let rem := len2 % 65521
  let s1 := (a1 % 65536 + a2 % 65536 + 65521 - 1) % 65521
  let s2 := (rem * (a1 % 65536) + a1 / 65536 % 65536 + a2 / 65536 % 65536
    + 65521 - rem) % 65521
  s2 * 65536 + s1

/-- Model of `check::Adler32` (`src/check.rs`): the packed running sum and
the `u32` byte count. -/
structure Adler32C where
  sum : Nat
  amount : Nat
  deriving DecidableEq

/-- `Adler32::new`: `adler32(0, null, 0)` returns 1. -/
def Adler32C.fresh : Adler32C := ⟨1, 0⟩

/-- Model of `Adler32::update`. -/
def Adler32C.update (c : Adler32C) (l : List Nat) : Adler32C :=
  ⟨adlerUpdate c.sum l, (c.amount + l.length) % 4294967296⟩

/-- Model of `Adler32::combine`: `adler32_combine` on the sums, the byte
counts added as `u32`. -/
def Adler32C.combine (c o : Adler32C) : Adler32C :=
  ⟨adlerCombine c.sum o.sum o.amount, (c.amount + o.amount) % 4294967296⟩

/-- The per-range Adler checksum: a fresh check updated with the range. -/
def Adler32C.ofList (l : List Nat) : Adler32C := Adler32C.fresh.update l

/-! ### The CRC-32 combine law -/

theorem crcStep_xor (a b : Nat) : crcStep (a ^^^ b) = crcStep a ^^^ crcStep b := by
  rcases Nat.mod_two_eq_zero_or_one a with ha | ha <;>
    rcases Nat.mod_two_eq_zero_or_one b with hb | hb
  · have hab : (a ^^^ b) % 2 = 0 := by rw [Nat.xor_mod_two_eq]; omega
    simp [crcStep, ha, hb, hab, Nat.xor_div_two]
  · have hab : (a ^^^ b) % 2 = 1 := by rw [Nat.xor_mod_two_eq]; omega
    have hr : a / 2 ^^^ b / 2 ^^^ 3988292384 = a / 2 ^^^ (b / 2 ^^^ 3988292384) := by
      ac_rfl
    simp [crcStep, ha, hb, hab, Nat.xor_div_two, Nat.xor_assoc, hr]
  · have hab : (a ^^^ b) % 2 = 1 := by rw [Nat.xor_mod_two_eq]; omega
    have hr : (a / 2 ^^^ b / 2) ^^^ 3988292384
        = (a / 2 ^^^ 3988292384) ^^^ b / 2 := by ac_rfl
    simp [crcStep, ha, hb, hab, Nat.xor_div_two, hr]
  · have hab : (a ^^^ b) % 2 = 0 := by rw [Nat.xor_mod_two_eq]; omega
    have hr : (a / 2 ^^^ 3988292384) ^^^ (b / 2 ^^^ 3988292384)
        = (a / 2 ^^^ b / 2) ^^^ (3988292384 ^^^ 3988292384) := by ac_rfl
    simp [crcStep, ha, hb, hab, Nat.xor_div_two, hr]

theorem crcIter_xor (k a b : Nat) :
    crcStep^[k] (a ^^^ b) = crcStep^[k] a ^^^ crcStep^[k] b := by
  induction k generalizing a b with
  | zero => simp
  | succ n ih =>
    rw [Function.iterate_succ_apply, Function.iterate_succ_apply,
      Function.iterate_succ_apply, crcStep_xor, ih]

theorem crcByte_zero (t : Nat) : crcByte t 0 = crcStep^[8] t := by
  simp [crcByte]

theorem crcByte_xor_left (s t b : Nat) :
    crcByte (s ^^^ t) b = crcByte s b ^^^ crcStep^[8] t := by
  unfold crcByte
  rw [show s ^^^ t ^^^ b % 256 = (s ^^^ b % 256) ^^^ t by ac_rfl, crcIter_xor]

theorem crcShiftZeros_succ (n t : Nat) :
    crcShiftZeros (n + 1) t = crcShiftZeros n (crcStep^[8] t) := by
  unfold crcShiftZeros
  rw [Function.iterate_succ_apply, crcByte_zero]

theorem crcRaw_cons (s b : Nat) (l : List Nat) :
    crcRaw s (b :: l) = crcRaw (crcByte s b) l := rfl

theorem crcRaw_append (s : Nat) (A B : List Nat) :
    crcRaw s (A ++ B) = crcRaw (crcRaw s A) B := by
  simp [crcRaw, List.foldl_append]

theorem crcRaw_xor (l : List Nat) (s t : Nat) :
    crcRaw (s ^^^ t) l = crcRaw s l ^^^ crcShiftZeros l.length t := by
  induction l generalizing s t with
  | nil => simp [crcRaw, crcShiftZeros]
  | cons b rest ih =>
    rw [crcRaw_cons, crcRaw_cons, crcByte_xor_left, ih, List.length_cons,
      crcShiftZeros_succ]

/-- The CRC-32 of a concatenation is the `crc32_combine` of the two
independent CRCs: the contract `Crc32::combine` relies on. -/
theorem crc32_append (A B : List Nat) :
    crc32 (A ++ B) = crc32Combine (crc32 A) (crc32 B) B.length := by
  unfold crc32 crc32Combine
  have h1 : crcRaw 0xFFFFFFFF A
      = 0xFFFFFFFF ^^^ (crcRaw 0xFFFFFFFF A ^^^ 0xFFFFFFFF) := by
    rw [Nat.xor_comm (crcRaw 0xFFFFFFFF A) 0xFFFFFFFF, ← Nat.xor_assoc]
    simp
  rw [crcRaw_append]
  conv_lhs => rw [h1]
  rw [crcRaw_xor]
  ac_rfl

theorem crc32C_combine_ofList (A B : List Nat) (hB : B.length < 4294967296) :
    (Crc32C.ofList A).combine (Crc32C.ofList B) = Crc32C.ofList (A ++ B) := by
  unfold Crc32C.ofList Crc32C.update Crc32C.combine Crc32C.fresh
  simp only [Nat.zero_add, List.length_append, Crc32C.mk.injEq]
  constructor
  · rw [Nat.mod_eq_of_lt hB]
    exact (crc32_append A B).symm
  · exact (Nat.add_mod A.length B.length 4294967296).symm

theorem crc32C_ofList_nil : Crc32C.ofList [] = Crc32C.fresh := by
  simp [Crc32C.ofList, Crc32C.update, Crc32C.fresh, crcRaw]

theorem crc32C_foldl_combine_aux (rs : List (List Nat)) :
    ∀ P : List Nat, P.length + rs.flatten.length < 4294967296 →
    List.foldl Crc32C.combine (Crc32C.ofList P) (rs.map Crc32C.ofList)
      = Crc32C.ofList (P ++ rs.flatten) := by
  induction rs with
  | nil => intro P _; simp
  | cons r rest ih =>
    intro P h
    have hlen : (r :: rest).flatten.length = r.length + rest.flatten.length := by
      simp
    rw [List.map_cons, List.foldl_cons,
      crc32C_combine_ofList P r (by rw [hlen] at h; omega),
      ih (P ++ r) (by rw [hlen] at h; simp only [List.length_append]; omega)]
    simp [List.append_assoc]

/-! ### The Adler-32 combine law -/

/-- Sum of the byte values (masked to `u8`) of a list. -/
def adlerByteSum : List Nat → Nat
  | [] => 0
  | b :: t => b % 256 + adlerByteSum t

/-- Position-weighted byte sum: byte `j` of `l` (0-based) contributes
`(l.length - j)` times; this is what the `s2` half of Adler-32
accumulates. -/
def adlerWSum : List Nat → Nat
  | [] => 0
  | b :: t => (t.length + 1) * (b % 256) + adlerWSum t

theorem adlerFold_spec (l : List Nat) :
    ∀ p1 p2 : Nat, p1 < 65521 → p2 < 65521 →
    adlerFold (p1, p2) l
      = ((p1 + adlerByteSum l) % 65521,
         (p2 + l.length * p1 + adlerWSum l) % 65521) := by
  induction l with
  | nil =>
    intro p1 p2 h1 h2
    simp [adlerFold, adlerByteSum, adlerWSum, Nat.mod_eq_of_lt h1,
      Nat.mod_eq_of_lt h2]
  | cons b t ih =>
    intro p1 p2 h1 h2
    have hstep : adlerFold (p1, p2) (b :: t)
        = adlerFold ((p1 + b % 256) % 65521,
            (p2 + (p1 + b % 256) % 65521) % 65521) t := rfl
    rw [hstep, ih _ _ (Nat.mod_lt _ (by norm_num)) (Nat.mod_lt _ (by norm_num))]
    refine Prod.ext ?_ ?_
    · show ((p1 + b % 256) % 65521 + adlerByteSum t) % 65521
        = (p1 + adlerByteSum (b :: t)) % 65521
      simp only [adlerByteSum]
      rw [Nat.mod_add_mod, Nat.add_assoc]
    · show ((p2 + (p1 + b % 256) % 65521) % 65521
          + t.length * ((p1 + b % 256) % 65521) + adlerWSum t) % 65521
        = (p2 + (b :: t).length * p1 + adlerWSum (b :: t)) % 65521
      simp only [adlerWSum, List.length_cons]
      rw [Nat.add_assoc, Nat.mod_add_mod, ← Nat.add_assoc]
      have hx : (p1 + b % 256) % 65521 ≡ p1 + b % 256 [MOD 65521] :=
        Nat.mod_modEq _ _
      calc (p2 + (p1 + b % 256) % 65521 + t.length * ((p1 + b % 256) % 65521)
            + adlerWSum t) % 65521
          = (p2 + (p1 + b % 256) % 65521 + t.length * ((p1 + b % 256) % 65521)
            + adlerWSum t) % 65521 := rfl
        _ = (p2 + (p1 + b % 256) + t.length * (p1 + b % 256)
            + adlerWSum t) % 65521 := by
            exact (((Nat.ModEq.refl p2).add hx).add
              (hx.mul_left t.length)).add (Nat.ModEq.refl (adlerWSum t))
        _ = (p2 + (t.length + 1) * p1
            + ((t.length + 1) * (b % 256) + adlerWSum t)) % 65521 := by
            congr 1
            ring

theorem adlerFold_append (p : Nat × Nat) (A B : List Nat) :
    adlerFold p (A ++ B) = adlerFold (adlerFold p A) B := by
  simp [adlerFold, List.foldl_append]

/-- The Adler-32 of a concatenation is the `adler32_combine` of the two
independent Adler sums: the contract `Adler32::combine` relies on. -/
theorem adler_append (A B : List Nat) :
    adlerUpdate 1 (A ++ B)
      = adlerCombine (adlerUpdate 1 A) (adlerUpdate 1 B) B.length := by
  have b65521 : (0 : Nat) < 65521 := by norm_num
  have hA := adlerFold_spec A 1 0 (by norm_num) b65521
  have hB := adlerFold_spec B 1 0 (by norm_num) b65521
  have hs1A : (1 + adlerByteSum A) % 65521 < 65521 := Nat.mod_lt _ b65521
  have hs2A : (0 + A.length * 1 + adlerWSum A) % 65521 < 65521 := Nat.mod_lt _ b65521
  have hs1B : (1 + adlerByteSum B) % 65521 < 65521 := Nat.mod_lt _ b65521
  have hs2B : (0 + B.length * 1 + adlerWSum B) % 65521 < 65521 := Nat.mod_lt _ b65521
  unfold adlerUpdate adlerCombine
  rw [show ((1 : Nat) % 65536, (1 : Nat) / 65536 % 65536) = (1, 0) from rfl]
  rw [adlerFold_append, hA, adlerFold_spec B _ _ hs1A hs2A, hB]
  dsimp only
  set s1A := (1 + adlerByteSum A) % 65521 with ds1A
  set s2A := (0 + A.length * 1 + adlerWSum A) % 65521 with ds2A
  set s1B := (1 + adlerByteSum B) % 65521 with ds1B
  set s2B := (0 + B.length * 1 + adlerWSum B) % 65521 with ds2B
  have u1A : (s2A * 65536 + s1A) % 65536 = s1A := by omega
  have u2A : (s2A * 65536 + s1A) / 65536 % 65536 = s2A := by omega
  have u1B : (s2B * 65536 + s1B) % 65536 = s1B := by omega
  have u2B : (s2B * 65536 + s1B) / 65536 % 65536 = s2B := by omega
  simp only [u1A, u2A, u1B, u2B]
  have comp1 : (s1A + s1B + 65521 - 1) % 65521 = (s1A + adlerByteSum B) % 65521 := by
    rw [ds1B]
    omega
  have hrem : B.length % 65521 ≤ 65521 := Nat.le_of_lt (Nat.mod_lt _ b65521)
  have comp2 : (B.length % 65521 * s1A + s2A + s2B + 65521 - B.length % 65521) % 65521
      = (s2A + B.length * s1A + adlerWSum B) % 65521 := by
    rw [Nat.add_sub_assoc hrem]
    have h0 : (B.length + (65521 - B.length % 65521)) % 65521 = 0 % 65521 := by
      omega
    calc (B.length % 65521 * s1A + s2A + s2B + (65521 - B.length % 65521)) % 65521
        = (B.length * s1A + s2A + (0 + B.length * 1 + adlerWSum B)
          + (65521 - B.length % 65521)) % 65521 := by
          exact ((((Nat.mod_modEq B.length 65521).mul_right s1A).add_right s2A).add
            (Nat.mod_modEq _ _)).add_right _
      _ = ((s2A + B.length * s1A + adlerWSum B)
          + (B.length + (65521 - B.length % 65521))) % 65521 := by
          have e : B.length * s1A + s2A + (0 + B.length * 1 + adlerWSum B)
              + (65521 - B.length % 65521)
              = s2A + B.length * s1A + adlerWSum B
              + (B.length + (65521 - B.length % 65521)) := by ring
          rw [e]
      _ = ((s2A + B.length * s1A + adlerWSum B) + 0) % 65521 :=
          (Nat.ModEq.refl _).add h0
      _ = (s2A + B.length * s1A + adlerWSum B) % 65521 := by rw [Nat.add_zero]
  rw [comp1, comp2]

theorem adler32C_combine_ofList (A B : List Nat) (hB : B.length < 4294967296) :
    (Adler32C.ofList A).combine (Adler32C.ofList B) = Adler32C.ofList (A ++ B) := by
  unfold Adler32C.ofList Adler32C.update Adler32C.combine Adler32C.fresh
  simp only [Nat.zero_add, List.length_append, Adler32C.mk.injEq]
  constructor
  · rw [Nat.mod_eq_of_lt hB]
    exact (adler_append A B).symm
  · exact (Nat.add_mod A.length B.length 4294967296).symm

theorem adler32C_ofList_nil : Adler32C.ofList [] = Adler32C.fresh := by
  simp [Adler32C.ofList, Adler32C.update, Adler32C.fresh, adlerUpdate, adlerFold]

theorem adler32C_foldl_combine_aux (rs : List (List Nat)) :
    ∀ P : List Nat, P.length + rs.flatten.length < 4294967296 →
    List.foldl Adler32C.combine (Adler32C.ofList P) (rs.map Adler32C.ofList)
      = Adler32C.ofList (P ++ rs.flatten) := by
  induction rs with
  | nil => intro P _; simp
  | cons r rest ih =>
    intro P h
    have hlen : (r :: rest).flatten.length = r.length + rest.flatten.length := by
      simp
    rw [List.map_cons, List.foldl_cons,
      adler32C_combine_ofList P r (by rw [hlen] at h; omega),
      ih (P ++ r) (by rw [hlen] at h; simp only [List.length_append]; omega)]
    simp [List.append_assoc]

/-- C3: for every partition of a byte sequence into adjacent ranges,
folding `combine` over the per-range checksums (each computed
independently by a fresh check updated with its range, in order) equals
the checksum of a single-pass update over the whole sequence; this holds
for both the `Crc32` and the `Adler32` checks, in both the `sum` and the
`amount` fields (the `amount` fields are `u32` counters, whence the bound
on the total length). -/
theorem checksum_combine_partition (ranges : List (List Nat))
    (h : ranges.flatten.length < 4294967296) :
    List.foldl Crc32C.combine Crc32C.fresh (ranges.map Crc32C.ofList)
        = Crc32C.ofList ranges.flatten
      ∧ List.foldl Adler32C.combine Adler32C.fresh (ranges.map Adler32C.ofList)
        = Adler32C.ofList ranges.flatten := by
  constructor
  · have haux := crc32C_foldl_combine_aux ranges [] (by simpa using h)
    rw [crc32C_ofList_nil] at haux
    simpa using haux
  · have haux := adler32C_foldl_combine_aux ranges [] (by simpa using h)
    rw [adler32C_ofList_nil] at haux
    simpa using haux

/-- Witness for `checksum_combine_partition` at the concrete partition
`[1,2] ‖ [3]`. -/
theorem checksum_combine_partition_witness :
    (([[1, 2], [3]] : List (List Nat)).flatten.length < 4294967296)
      ∧ (List.foldl Crc32C.combine Crc32C.fresh
            (([[1, 2], [3]] : List (List Nat)).map Crc32C.ofList)
          = Crc32C.ofList ([[1, 2], [3]] : List (List Nat)).flatten
        ∧ List.foldl Adler32C.combine Adler32C.fresh
            (([[1, 2], [3]] : List (List Nat)).map Adler32C.ofList)
          = Adler32C.ofList ([[1, 2], [3]] : List (List Nat)).flatten) :=
  ⟨by decide, checksum_combine_partition [[1, 2], [3]] (by decide)⟩

/-! ### Errors (`GzpError`, src/lib.rs) restricted to the variants the
modelled code paths can produce -/

inductive GzpErr where
  | blockSizeExceeded (got cap : Nat)
  | invalidCheck (found expected : Nat)
  | invalidHeader (msg : String)
  | ioUnexpectedEof
  deriving DecidableEq

/-- Bind on `ok` evaluates the continuation. -/
theorem ok_bind {α β : Type} (a : α) (f : α → Except GzpErr β) :
    (Except.ok a).bind f = f a := rfl

/-! ### Format framing (src/deflate.rs, src/bgzf.rs, src/mgzip.rs) -/

/-- The `XFL` byte all the gzip-family headers write (`Gzip::header`,
`bgzf::header_inner`, `mgzip::header_inner`): 2 from
`Compression::best()` (level 9) up, 4 from `Compression::fast()`
(level 1) down — which includes level 0 — and 0 otherwise. -/
def compValue (lvl : Nat) : Nat :=
  if 9 ≤ lvl then 2 else if lvl ≤ 1 then 4 else 0

/-- One `Pair { num_bytes, value }` rendered to bytes
(`FormatSpec::to_bytes`, src/lib.rs): a negative count writes that many
bytes big-endian, a positive count writes them little-endian. -/
def pairBytes (p : Int × Nat) : List Nat :=
  if p.1 < 0 then beBytes p.1.natAbs p.2 else leBytes p.1.toNat p.2

/-- `FormatSpec::to_bytes` over a list of pairs. -/
def toBytes (pairs : List (Int × Nat)) : List Nat :=
  (pairs.map pairBytes).flatten

/-- `Gzip::header` (src/deflate.rs): the ten-byte gzip stream header. -/
def gzipHeader (lvl : Nat) : List Nat :=
  toBytes [(1, 31), (1, 139), (1, 8), (1, 0), (4, 0), (1, compValue lvl), (1, 255)]

/-- The canonical 28-byte empty-block EOF sentinel `bgzf::BGZF_EOF`. -/
def bgzfEofBytes : List Nat :=
  [31, 139, 8, 4, 0, 0, 0, 0, 0, 255, 6, 0, 66, 67, 2, 0, 27, 0, 3, 0,
   0, 0, 0, 0, 0, 0, 0, 0]

/-- `bgzf::header_inner`: the 18-byte BGZF block header; `compressed_size`
arrives as a `u16` (the call site truncates `buffer.len() as u16`) and
`BSIZE = compressed_size + 26 - 1` is computed in `u16` arithmetic. -/
def bgzfHeaderInner (lvl csize : Nat) : List Nat :=
  [31, 139, 8, 4] ++ u32le 0 ++ [compValue lvl, 255] ++ u16le 6 ++ [66, 67]
    ++ u16le 2 ++ u16le ((csize % 65536 + 25) % 65536)

/-- `bgzf::compress`: deflate the block (the codec is the oracle
`deflate`), reject the block if the bare compressed payload is not below
`MAX_BGZF_BLOCK_SIZE = 65536`, then frame it with the 18-byte header and
the CRC32/ISIZE footer. -/
def bgzfCompress (deflate : List Nat → List Nat) (lvl : Nat)
    (input : List Nat) : Except GzpErr (List Nat) :=
  let payload := deflate input
  if payload.length < 65536 then
    Except.ok (bgzfHeaderInner lvl payload.length ++ payload
      ++ u32le (crc32 input) ++ u32le (input.length % 4294967296))
  else
    Except.error (GzpErr.blockSizeExceeded payload.length 65536)

/-- `mgzip::header_inner`: the 20-byte MGZIP block header whose extra
field carries the total block size `compressed_size + 28` (in `u32`
arithmetic). -/
def mgzipHeaderInner (lvl csize : Nat) : List Nat :=
  [31, 139, 8, 4] ++ u32le 0 ++ [compValue lvl, 255] ++ u16le 8 ++ [73, 71]
    ++ u16le 4 ++ u32le ((csize % 4294967296 + 28) % 4294967296)

/-- `mgzip::compress`: deflate the block and frame it; MGZIP applies no
size guard. -/
def mgzipCompress (deflate : List Nat → List Nat) (lvl : Nat)
    (input : List Nat) : Except GzpErr (List Nat) :=
  Except.ok (mgzipHeaderInner lvl (deflate input).length ++ deflate input
    ++ u32le (crc32 input) ++ u32le (input.length % 4294967296))

/-- The pair `BlockFormatSpec::get_footer_values` extracts: the last
eight bytes of a framed block body are the little-endian CRC and the
little-endian original size. -/
structure FooterVals where
  sum : Nat
  amount : Nat
  deriving DecidableEq

/-- `BlockFormatSpec::get_footer_values` (src/lib.rs). -/
def getFooterValues (input : List Nat) : FooterVals :=
  ⟨readU32LE4 (input.drop (input.length - 8)),
   readU32LE4 (input.drop (input.length - 4))⟩

/-- `bgzf::decompress`: the output buffer is resized to the footer's
original-size field; the deflate body (everything but the last eight
bytes) is decoded only when that field is nonzero, through the oracle
`inflate`; the CRC32 of the output is compared with the footer's CRC. -/
def bgzfDecompress (inflate : List Nat → List Nat) (input : List Nat)
    (fv : FooterVals) : Except GzpErr (List Nat) :=
  let output := if fv.amount ≠ 0 then inflate (input.take (input.length - 8)) else []
  if fv.sum = crc32 output then Except.ok output
  else Except.error (GzpErr.invalidCheck (crc32 output) fv.sum)

/-- `mgzip::decompress`: identical to the BGZF block decode. -/
def mgzipDecompress (inflate : List Nat → List Nat) (input : List Nat)
    (fv : FooterVals) : Except GzpErr (List Nat) :=
  let output := if fv.amount ≠ 0 then inflate (input.take (input.length - 8)) else []
  if fv.sum = crc32 output then Except.ok output
  else Except.error (GzpErr.invalidCheck (crc32 output) fv.sum)

/-- `Bgzf::check_header` (src/deflate.rs): the extra-field flag must be
set and the subfield identifier must be `BC`. -/
def bgzfCheckHeader (bytes : List Nat) : Except GzpErr Unit :=
  if bytes.getD 3 0 &&& 4 ≠ 4 then
    Except.error (GzpErr.invalidHeader "Extra field flag not set")
  else if bytes.getD 12 0 ≠ 66 ∨ bytes.getD 13 0 ≠ 67 then
    Except.error (GzpErr.invalidHeader "Bad SID")
  else Except.ok ()

/-- `Mgzip::check_header` (src/deflate.rs): extra-field flag plus the
subfield identifier `IG`. -/
def mgzipCheckHeader (bytes : List Nat) : Except GzpErr Unit :=
  if bytes.getD 3 0 &&& 4 ≠ 4 then
    Except.error (GzpErr.invalidHeader "Extra field flag not set")
  else if bytes.getD 12 0 ≠ 73 ∨ bytes.getD 13 0 ≠ 71 then
    Except.error (GzpErr.invalidHeader "Bad SID")
  else Except.ok ()

/-- `Bgzf::get_block_size`: `BSIZE` at offset 16, little-endian `u16`,
plus one. -/
def bgzfGetBlockSize (bytes : List Nat) : Nat :=
  readU16LE2 (bytes.drop 16) + 1

/-- `Mgzip::get_block_size`: the `u32` at offset 16. -/
def mgzipGetBlockSize (bytes : List Nat) : Nat :=
  readU32LE4 (bytes.drop 16)

/-- Decoding one complete framed BGZF block, the path
`BgzfSyncReader::read` takes per block (also the parallel decompress
worker): validate the header, strip it, read the footer values from the
tail, and run the block decode with them. -/
def bgzfDecodeFramedBlock (inflate : List Nat → List Nat)
    (block : List Nat) : Except GzpErr (List Nat) :=
  (bgzfCheckHeader (block.take 18)).bind fun _ =>
    bgzfDecompress inflate (block.drop 18) (getFooterValues (block.drop 18))

/-- Decoding one complete framed MGZIP block
(`MgzipSyncReader::read` per block). -/
def mgzipDecodeFramedBlock (inflate : List Nat → List Nat)
    (block : List Nat) : Except GzpErr (List Nat) :=
  (mgzipCheckHeader (block.take 20)).bind fun _ =>
    mgzipDecompress inflate (block.drop 20) (getFooterValues (block.drop 20))

/-- Compress every block of a partition, in order, failing on the first
block error. -/
def bgzfEncodeBlocks (deflate : List Nat → List Nat) (lvl : Nat) :
    List (List Nat) → Except GzpErr (List (List Nat))
  | [] => Except.ok []
  | b :: bs =>
    (bgzfCompress deflate lvl b).bind fun cb =>
      (bgzfEncodeBlocks deflate lvl bs).bind fun cbs => Except.ok (cb :: cbs)

/-- Decode a list of framed BGZF blocks independently, in order, and
concatenate the outputs. -/
def bgzfDecodeBlocks (inflate : List Nat → List Nat) :
    List (List Nat) → Except GzpErr (List Nat)
  | [] => Except.ok []
  | cb :: cbs =>
    (bgzfDecodeFramedBlock inflate cb).bind fun x =>
      (bgzfDecodeBlocks inflate cbs).bind fun xs => Except.ok (x ++ xs)

/-- Compress every MGZIP block of a partition, in order. -/
def mgzipEncodeBlocks (deflate : List Nat → List Nat) (lvl : Nat) :
    List (List Nat) → Except GzpErr (List (List Nat))
  | [] => Except.ok []
  | b :: bs =>
    (mgzipCompress deflate lvl b).bind fun cb =>
      (mgzipEncodeBlocks deflate lvl bs).bind fun cbs => Except.ok (cb :: cbs)

/-- Decode a list of framed MGZIP blocks independently, in order, and
concatenate the outputs. -/
def mgzipDecodeBlocks (inflate : List Nat → List Nat) :
    List (List Nat) → Except GzpErr (List Nat)
  | [] => Except.ok []
  | cb :: cbs =>
    (mgzipDecodeFramedBlock inflate cb).bind fun x =>
      (mgzipDecodeBlocks inflate cbs).bind fun xs => Except.ok (x ++ xs)

/-! ### Byte-level facts about the framing -/

theorem u16le_eq (v : Nat) : u16le v = [v % 256, v / 256 % 256] := by
  simp [u16le, leBytes, List.range_succ]

theorem u32le_eq (v : Nat) :
    u32le v = [v % 256, v / 256 % 256, v / 65536 % 256, v / 16777216 % 256] := by
  simp [u32le, leBytes, List.range_succ]

theorem bgzfHeaderInner_eq (lvl c : Nat) :
    bgzfHeaderInner lvl c
      = [31, 139, 8, 4, 0, 0, 0, 0, compValue lvl, 255, 6, 0, 66, 67, 2, 0,
         (c % 65536 + 25) % 65536 % 256, (c % 65536 + 25) % 65536 / 256 % 256] := by
  simp [bgzfHeaderInner, u32le_eq, u16le_eq]

theorem bgzfHeaderInner_length (lvl c : Nat) :
    (bgzfHeaderInner lvl c).length = 18 := by
  rw [bgzfHeaderInner_eq]
  rfl

theorem mgzipHeaderInner_eq (lvl c : Nat) :
    mgzipHeaderInner lvl c
      = [31, 139, 8, 4, 0, 0, 0, 0, compValue lvl, 255, 8, 0, 73, 71, 4, 0,
         (c % 4294967296 + 28) % 4294967296 % 256,
         (c % 4294967296 + 28) % 4294967296 / 256 % 256,
         (c % 4294967296 + 28) % 4294967296 / 65536 % 256,
         (c % 4294967296 + 28) % 4294967296 / 16777216 % 256] := by
  simp [mgzipHeaderInner, u32le_eq, u16le_eq]

theorem mgzipHeaderInner_length (lvl c : Nat) :
    (mgzipHeaderInner lvl c).length = 20 := by
  rw [mgzipHeaderInner_eq]
  rfl

theorem bgzfCheckHeader_headerInner (lvl c : Nat) :
    bgzfCheckHeader (bgzfHeaderInner lvl c) = Except.ok () := by
  rw [bgzfHeaderInner_eq]
  simp [bgzfCheckHeader]

theorem mgzipCheckHeader_headerInner (lvl c : Nat) :
    mgzipCheckHeader (mgzipHeaderInner lvl c) = Except.ok () := by
  rw [mgzipHeaderInner_eq]
  simp [mgzipCheckHeader]

/-! ### CRC values fit in a `u32` -/

theorem crcStep_lt {s : Nat} (h : s < 4294967296) : crcStep s < 4294967296 := by
  unfold crcStep
  split
  · have h1 : s / 2 < 2 ^ 32 := by omega
    have h2 : (3988292384 : Nat) < 2 ^ 32 := by norm_num
    have h3 := Nat.xor_lt_two_pow h1 h2
    calc s / 2 ^^^ 3988292384 < 2 ^ 32 := h3
      _ = 4294967296 := by norm_num
  · omega

theorem crcIterate_lt (k : Nat) {s : Nat} (h : s < 4294967296) :
    crcStep^[k] s < 4294967296 := by
  induction k generalizing s with
  | zero => simpa
  | succ n ih =>
    rw [Function.iterate_succ_apply]
    exact ih (crcStep_lt h)

theorem crcByte_lt (b : Nat) {s : Nat} (h : s < 4294967296) :
    crcByte s b < 4294967296 := by
  unfold crcByte
  apply crcIterate_lt
  have h1 : s < 2 ^ 32 := by norm_num; omega
  have h2 : b % 256 < 2 ^ 32 := by
    have : b % 256 < 256 := Nat.mod_lt b (by norm_num)
    norm_num
    omega
  have h3 := Nat.xor_lt_two_pow h1 h2
  calc s ^^^ b % 256 < 2 ^ 32 := h3
    _ = 4294967296 := by norm_num

theorem crcRaw_lt (l : List Nat) {s : Nat} (h : s < 4294967296) :
    crcRaw s l < 4294967296 := by
  induction l generalizing s with
  | nil => simpa [crcRaw]
  | cons b t ih =>
    rw [crcRaw_cons]
    exact ih (crcByte_lt b h)

theorem crc32_lt (l : List Nat) : crc32 l < 4294967296 := by
  unfold crc32
  have h1 := crcRaw_lt l (show (0xFFFFFFFF : Nat) < 4294967296 by norm_num)
  have h2 : crcRaw 0xFFFFFFFF l < 2 ^ 32 := by
    calc crcRaw 0xFFFFFFFF l < 4294967296 := h1
      _ = 2 ^ 32 := by norm_num
  have h3 : (0xFFFFFFFF : Nat) < 2 ^ 32 := by norm_num
  have h4 := Nat.xor_lt_two_pow h2 h3
  calc crcRaw 0xFFFFFFFF l ^^^ 0xFFFFFFFF < 2 ^ 32 := h4
    _ = 4294967296 := by norm_num

/-! ### Footer extraction -/

theorem getFooterValues_append (payload : List Nat) (s n : Nat)
    (hs : s < 4294967296) (hn : n < 4294967296) :
    getFooterValues (payload ++ u32le s ++ u32le n) = ⟨s, n⟩ := by
  have hlen : (payload ++ u32le s ++ u32le n).length = payload.length + 8 := by
    simp only [List.length_append, length_u32le]
  unfold getFooterValues
  rw [hlen]
  have d8 : payload.length + 8 - 8 = payload.length := by omega
  have d4 : payload.length + 8 - 4 = payload.length + 4 := by omega
  rw [d8, d4]
  simp only [FooterVals.mk.injEq]
  constructor
  · rw [List.append_assoc, List.drop_left]
    exact readU32LE4_u32le s hs (u32le n)
  · have hl2 : (payload ++ u32le s).length = payload.length + 4 := by
      simp only [List.length_append, length_u32le]
    rw [show payload.length + 4 = (payload ++ u32le s).length from hl2.symm,
      List.drop_left]
    have h := readU32LE4_u32le n hn []
    simpa using h

/-! ### Block round-trips -/

/-- The framed block `bgzf::compress` produces when the payload fits. -/
def bgzfBlockBytes (deflate : List Nat → List Nat) (lvl : Nat)
    (b : List Nat) : List Nat :=
  bgzfHeaderInner lvl (deflate b).length ++ deflate b
    ++ u32le (crc32 b) ++ u32le (b.length % 4294967296)

/-- The framed block `mgzip::compress` produces. -/
def mgzipBlockBytes (deflate : List Nat → List Nat) (lvl : Nat)
    (b : List Nat) : List Nat :=
  mgzipHeaderInner lvl (deflate b).length ++ deflate b
    ++ u32le (crc32 b) ++ u32le (b.length % 4294967296)

theorem bgzfCompress_eq_ok (deflate : List Nat → List Nat) (lvl : Nat)
    (b : List Nat) (hlen : (deflate b).length < 65536) :
    bgzfCompress deflate lvl b = Except.ok (bgzfBlockBytes deflate lvl b) := by
  simp only [bgzfCompress, bgzfBlockBytes]
  rw [if_pos hlen]

theorem mgzipCompress_eq_ok (deflate : List Nat → List Nat) (lvl : Nat)
    (b : List Nat) :
    mgzipCompress deflate lvl b = Except.ok (mgzipBlockBytes deflate lvl b) := rfl

theorem bgzfDecodeFramedBlock_blockBytes (deflate inflate : List Nat → List Nat)
    (lvl : Nat) (b : List Nat) (hinv : inflate (deflate b) = b)
    (hb : b.length < 4294967296) :
    bgzfDecodeFramedBlock inflate (bgzfBlockBytes deflate lvl b)
      = Except.ok b := by
  unfold bgzfDecodeFramedBlock bgzfBlockBytes
  rw [show bgzfHeaderInner lvl (deflate b).length ++ deflate b
        ++ u32le (crc32 b) ++ u32le (b.length % 4294967296)
      = bgzfHeaderInner lvl (deflate b).length ++ (deflate b
        ++ u32le (crc32 b) ++ u32le (b.length % 4294967296)) by
    simp [List.append_assoc]]
  rw [List.take_left' (bgzfHeaderInner_length _ _),
    List.drop_left' (bgzfHeaderInner_length _ _),
    bgzfCheckHeader_headerInner, ok_bind,
    getFooterValues_append _ _ _ (crc32_lt b) (Nat.mod_lt _ (by norm_num)),
    Nat.mod_eq_of_lt hb]
  unfold bgzfDecompress
  dsimp only
  by_cases hnil : b.length = 0
  · have hb0 : b = [] := List.length_eq_zero.mp hnil
    subst hb0
    simp
  · rw [if_pos hnil]
    have htake : (deflate b ++ u32le (crc32 b) ++ u32le b.length).take
        ((deflate b ++ u32le (crc32 b) ++ u32le b.length).length - 8)
        = deflate b := by
      have hPlen : (deflate b ++ u32le (crc32 b) ++ u32le b.length).length
          = (deflate b).length + 8 := by
        simp only [List.length_append, length_u32le]
      rw [hPlen, show (deflate b).length + 8 - 8 = (deflate b).length by omega,
        List.append_assoc]
      exact List.take_left _ _
    rw [htake, hinv, if_pos rfl]

theorem mgzipDecodeFramedBlock_blockBytes (deflate inflate : List Nat → List Nat)
    (lvl : Nat) (b : List Nat) (hinv : inflate (deflate b) = b)
    (hb : b.length < 4294967296) :
    mgzipDecodeFramedBlock inflate (mgzipBlockBytes deflate lvl b)
      = Except.ok b := by
  unfold mgzipDecodeFramedBlock mgzipBlockBytes
  rw [show mgzipHeaderInner lvl (deflate b).length ++ deflate b
        ++ u32le (crc32 b) ++ u32le (b.length % 4294967296)
      = mgzipHeaderInner lvl (deflate b).length ++ (deflate b
        ++ u32le (crc32 b) ++ u32le (b.length % 4294967296)) by
    simp [List.append_assoc]]
  rw [List.take_left' (mgzipHeaderInner_length _ _),
    List.drop_left' (mgzipHeaderInner_length _ _),
    mgzipCheckHeader_headerInner, ok_bind,
    getFooterValues_append _ _ _ (crc32_lt b) (Nat.mod_lt _ (by norm_num)),
    Nat.mod_eq_of_lt hb]
  unfold mgzipDecompress
  dsimp only
  by_cases hnil : b.length = 0
  · have hb0 : b = [] := List.length_eq_zero.mp hnil
    subst hb0
    simp
  · rw [if_pos hnil]
    have htake : (deflate b ++ u32le (crc32 b) ++ u32le b.length).take
        ((deflate b ++ u32le (crc32 b) ++ u32le b.length).length - 8)
        = deflate b := by
      have hPlen : (deflate b ++ u32le (crc32 b) ++ u32le b.length).length
          = (deflate b).length + 8 := by
        simp only [List.length_append, length_u32le]
      rw [hPlen, show (deflate b).length + 8 - 8 = (deflate b).length by omega,
        List.append_assoc]
      exact List.take_left _ _
    rw [htake, hinv, if_pos rfl]

theorem bgzfEncodeBlocks_eq (deflate : List Nat → List Nat) (lvl : Nat)
    (blocks : List (List Nat))
    (hlen : ∀ b ∈ blocks, (deflate b).length < 65536) :
    bgzfEncodeBlocks deflate lvl blocks
      = Except.ok (blocks.map (bgzfBlockBytes deflate lvl)) := by
  induction blocks with
  | nil => rfl
  | cons b bs ih =>
    simp only [bgzfEncodeBlocks]
    rw [bgzfCompress_eq_ok deflate lvl b (hlen b (by simp)), ok_bind,
      ih (fun x hx => hlen x (by simp [hx])), ok_bind]
    rfl

theorem mgzipEncodeBlocks_eq (deflate : List Nat → List Nat) (lvl : Nat)
    (blocks : List (List Nat)) :
    mgzipEncodeBlocks deflate lvl blocks
      = Except.ok (blocks.map (mgzipBlockBytes deflate lvl)) := by
  induction blocks with
  | nil => rfl
  | cons b bs ih =>
    simp only [mgzipEncodeBlocks]
    rw [mgzipCompress_eq_ok deflate lvl b, ok_bind, ih, ok_bind]
    rfl

theorem bgzfDecodeBlocks_map (inflate : List Nat → List Nat)
    (f : List Nat → List Nat) (blocks : List (List Nat))
    (h : ∀ b ∈ blocks, bgzfDecodeFramedBlock inflate (f b) = Except.ok b) :
    bgzfDecodeBlocks inflate (blocks.map f) = Except.ok blocks.flatten := by
  induction blocks with
  | nil => rfl
  | cons b bs ih =>
    simp only [List.map_cons, bgzfDecodeBlocks]
    rw [h b (by simp), ok_bind, ih (fun x hx => h x (by simp [hx])), ok_bind]
    simp

theorem mgzipDecodeBlocks_map (inflate : List Nat → List Nat)
    (f : List Nat → List Nat) (blocks : List (List Nat))
    (h : ∀ b ∈ blocks, mgzipDecodeFramedBlock inflate (f b) = Except.ok b) :
    mgzipDecodeBlocks inflate (blocks.map f) = Except.ok blocks.flatten := by
  induction blocks with
  | nil => rfl
  | cons b bs ih =>
    simp only [List.map_cons, mgzipDecodeBlocks]
    rw [h b (by simp), ok_bind, ih (fun x hx => h x (by simp [hx])), ok_bind]
    simp

/-- C1: with a codec whose block inflate inverts its block deflate, BGZF
and MGZIP block compression round-trip: each framed block decodes — via
the footer's CRC and original-size fields — back to its input, and
composing the per-block round-trip over any partition of `X` into blocks
of at most the configured block size (`BGZF_BLOCK_SIZE = 65280` is the
BGZF cap) returns `X` exactly, at every compression level `lvl`.  The
BGZF side-condition is the `bgzf::compress` acceptance guard: every
payload deflates to under 64 KiB. -/
theorem block_roundtrip_partition (deflate inflate : List Nat → List Nat)
    (lvl : Nat) (blocks : List (List Nat))
    (hinv : ∀ x, inflate (deflate x) = x)
    (hsize : ∀ b ∈ blocks, b.length ≤ 65280)
    (hcomp : ∀ b ∈ blocks, (deflate b).length < 65536) :
    (bgzfEncodeBlocks deflate lvl blocks).bind (bgzfDecodeBlocks inflate)
        = Except.ok blocks.flatten
      ∧ (mgzipEncodeBlocks deflate lvl blocks).bind (mgzipDecodeBlocks inflate)
        = Except.ok blocks.flatten := by
  constructor
  · rw [bgzfEncodeBlocks_eq deflate lvl blocks hcomp, ok_bind]
    exact bgzfDecodeBlocks_map inflate _ blocks (fun b hb =>
      bgzfDecodeFramedBlock_blockBytes deflate inflate lvl b (hinv b)
        (lt_of_le_of_lt (hsize b hb) (by norm_num)))
  · rw [mgzipEncodeBlocks_eq deflate lvl blocks, ok_bind]
    exact mgzipDecodeBlocks_map inflate _ blocks (fun b hb =>
      mgzipDecodeFramedBlock_blockBytes deflate inflate lvl b (hinv b)
        (lt_of_le_of_lt (hsize b hb) (by norm_num)))

/-- Witness for `block_roundtrip_partition`: the identity codec on the
partition `[1,2] ‖ [3]` at level 3. -/
theorem block_roundtrip_partition_witness :
    (bgzfEncodeBlocks (fun l => l) 3 [[1, 2], [3]]).bind
        (bgzfDecodeBlocks (fun l => l)) = Except.ok [1, 2, 3]
      ∧ (mgzipEncodeBlocks (fun l => l) 3 [[1, 2], [3]]).bind
        (mgzipDecodeBlocks (fun l => l)) = Except.ok [1, 2, 3] := by
  have h := block_roundtrip_partition (fun l => l) (fun l => l) 3
    [[1, 2], [3]] (fun _ => rfl) (by decide) (by decide)
  simpa using h

/-! ### The parallel compressor pipeline (src/par/compress.rs) -/

/-- The `Check` operations a format's check type supplies
(`FormatSpec::C`, src/check.rs). -/
structure CheckModel (σ : Type) where
  fresh : σ
  upd : σ → List Nat → σ
  comb : σ → σ → σ

/-- The `FormatSpec` operations `ParCompress::run` uses, at a fixed
compression level; `encode` takes the block's bytes, its optional
dictionary slice, and its `is_last` flag, as `Message` carries them. -/
structure FormatModel (σ : Type) where
  header : List Nat
  footer : σ → List Nat
  encode : List Nat → Option (List Nat) → Bool → List Nat

/-- One dispatched `Message`: the block's bytes, the optional dictionary
slice (the previous block's last 32 KiB when the format wants one), and
the `is_last` flag. -/
structure MessageM where
  buffer : List Nat
  dictionary : Option (List Nat)
  isLast : Bool

/-- What one worker sends back on a job's oneshot (`ParCompress::run`,
worker loop): the block encoded by the format, paired with a fresh check
updated with the block's uncompressed bytes. -/
def workerOut {σ : Type} (C : CheckModel σ) (F : FormatModel σ)
    (m : MessageM) : σ × List Nat :=
  (C.upd C.fresh m.buffer, F.encode m.buffer m.dictionary m.isLast)

/-- The writer half of `ParCompress::run`: receive each block's
`(check, bytes)` in input order, fold the check into the running check,
write the bytes; when the writer channel closes, write the footer of the
running check. -/
def writerLoop {σ : Type} (C : CheckModel σ) (F : FormatModel σ)
    (running : σ) : List (σ × List Nat) → List Nat
  | [] => F.footer running
  | (chk, chunk) :: rest => chunk ++ writerLoop C F (C.comb running chk) rest

/-- The byte stream `ParCompress::run` writes for a sequence of dispatched
blocks: the format header first, then the writer loop over the per-block
worker results, which the bounded writer channel delivers in dispatch
order. -/
def parCompressRun {σ : Type} (C : CheckModel σ) (F : FormatModel σ)
    (blocks : List MessageM) : List Nat :=
  F.header ++ writerLoop C F C.fresh (blocks.map (workerOut C F))

theorem writerLoop_spec {σ : Type} (C : CheckModel σ) (F : FormatModel σ)
    (blocks : List MessageM) :
    ∀ s : σ, writerLoop C F s (blocks.map (workerOut C F))
      = (blocks.map (fun m => F.encode m.buffer m.dictionary m.isLast)).flatten
        ++ F.footer (List.foldl C.comb s
            (blocks.map (fun m => C.upd C.fresh m.buffer))) := by
  induction blocks with
  | nil => intro s; rfl
  | cons b bs ih =>
    intro s
    simp only [List.map_cons, workerOut, writerLoop, List.foldl_cons]
    rw [ih]
    simp [List.append_assoc]

/-- C2: the parallel compressor's output stream is exactly the format
header, followed by the per-block compressed payloads concatenated in
input-block order, followed by the footer of the in-order combine of the
per-block checksums, each being a fresh check updated with that block's
uncompressed bytes. -/
theorem parCompress_output_layout {σ : Type} (C : CheckModel σ)
    (F : FormatModel σ) (blocks : List MessageM) :
    parCompressRun C F blocks
      = F.header
        ++ ((blocks.map (fun m => F.encode m.buffer m.dictionary m.isLast)).flatten
        ++ F.footer (List.foldl C.comb C.fresh
            (blocks.map (fun m => C.upd C.fresh m.buffer)))) := by
  unfold parCompressRun
  rw [writerLoop_spec]

/-! ### The public writer's ingest loop (`ParCompress::write`) -/

/-- The drain loop of `ParCompress::write`: while the accumulator is
strictly longer than the configured block size (`buffer.len() >
buffer_size`), split exactly `bsize` bytes off the front as one dispatched
block.  The `0 < bsize` conjunct makes the model total; the builder
guarantees `bsize ≥ DICT_SIZE = 32768`, and at `bsize = 0` the source loop
would never terminate. -/
def drainLoop (bsize : Nat) (buf : List Nat) : List (List Nat) × List Nat :=
  if h : bsize < buf.length ∧ 0 < bsize then
    let rest := drainLoop bsize (buf.drop bsize)
    (buf.take bsize :: rest.1, rest.2)
  else ([], buf)
termination_by buf.length
decreasing_by simp only [List.length_drop]; omega

/-- `ParCompress::write`: extend the accumulator with the caller's bytes,
dispatch full blocks while the accumulator strictly exceeds the block
size, and return `Ok(buf.len())`, the full length of the caller's slice.
Result: (new accumulator, dispatched blocks, returned byte count). -/
def parCompressWrite (bsize : Nat) (buffer input : List Nat) :
    List Nat × List (List Nat) × Nat :=
  ((drainLoop bsize (buffer ++ input)).2, (drainLoop bsize (buffer ++ input)).1,
   input.length)

theorem parCompressWrite_acc (bsize : Nat) (buffer input : List Nat) :
    (parCompressWrite bsize buffer input).1
      = (drainLoop bsize (buffer ++ input)).2 := rfl

theorem parCompressWrite_blocks (bsize : Nat) (buffer input : List Nat) :
    (parCompressWrite bsize buffer input).2.1
      = (drainLoop bsize (buffer ++ input)).1 := rfl

theorem drainLoop_eq_of_le (bsize : Nat) (buf : List Nat)
    (h : buf.length <= bsize) : drainLoop bsize buf = ([], buf) := by
  rw [drainLoop, dif_neg (by omega)]

theorem drainLoop_spec (bsize : Nat) :
    ∀ n (buf : List Nat), buf.length ≤ n →
    ((drainLoop bsize buf).1.map List.length).sum
        + (drainLoop bsize buf).2.length = buf.length
      ∧ (0 < bsize → (drainLoop bsize buf).2.length ≤ bsize) := by
  intro n
  induction n with
  | zero =>
    intro buf h
    rw [drainLoop, dif_neg (by omega)]
    dsimp only
    constructor
    · simp
    · intro _; omega
  | succ n ih =>
    intro buf h
    by_cases hc : bsize < buf.length ∧ 0 < bsize
    · rw [drainLoop, dif_pos hc]
      have hrec := ih (buf.drop bsize)
        (by simp only [List.length_drop]; omega)
      dsimp only
      constructor
      · have h1 := hrec.1
        simp only [List.map_cons, List.sum_cons, List.length_take,
          List.length_drop] at h1 ⊢
        omega
      · intro hb
        exact hrec.2 hb
    · rw [drainLoop, dif_neg hc]
      dsimp only
      constructor
      · simp
      · intro hb; omega

/-- C10: whenever `ParCompress::write` returns it reports exactly the
length of the input slice, no matter how many blocks were dispatched
during the call; no byte is lost either — the dispatched blocks and the
remaining accumulator partition the accumulated bytes. -/
theorem parCompressWrite_returns_full_length (bsize : Nat)
    (buffer input : List Nat) :
    (parCompressWrite bsize buffer input).2.2 = input.length
      ∧ ((parCompressWrite bsize buffer input).2.1.map List.length).sum
          + (parCompressWrite bsize buffer input).1.length
        = buffer.length + input.length := by
  constructor
  · rfl
  · have h := (drainLoop_spec bsize (buffer ++ input).length (buffer ++ input)
      le_rfl).1
    rw [parCompressWrite_acc, parCompressWrite_blocks]
    simpa using h

/-- C8 counterexample: writing exactly `buffer_size` bytes into an empty
accumulator dispatches nothing (the loop guard is strict), so the
accumulator length equals — does not drop below — the configured block
size after `write` returns. -/
theorem parCompressWrite_invariant_counterexample :
    ¬ ((parCompressWrite 32768 [] (List.replicate 32768 0)).1.length
      < 32768) := by
  rw [parCompressWrite_acc, drainLoop_eq_of_le 32768 _
    (by simp only [List.nil_append, List.length_replicate]; omega)]
  simp only [List.nil_append, List.length_replicate]
  omega

/-- C8 amended: between public `write` calls the ingest accumulator's
length is at most (not strictly below) the configured block size, because
`write` dispatches blocks of exactly `buffer_size` bytes only while the
accumulator length strictly exceeds the block size. -/
theorem parCompressWrite_accumulator_le (bsize : Nat) (buffer input : List Nat)
    (hb : 0 < bsize) :
    (parCompressWrite bsize buffer input).1.length ≤ bsize := by
  have h := (drainLoop_spec bsize (buffer ++ input).length (buffer ++ input)
    le_rfl).2 hb
  rw [parCompressWrite_acc]
  exact h

/-- Witness for `parCompressWrite_accumulator_le` at block size 4 and six
input bytes. -/
theorem parCompressWrite_accumulator_le_witness :
    (0 : Nat) < 4 ∧ (parCompressWrite 4 [] [1, 2, 3, 4, 5, 6]).1.length ≤ 4 :=
  ⟨by decide, parCompressWrite_accumulator_le 4 [] [1, 2, 3, 4, 5, 6] (by decide)⟩

/-! ### The parallel decompressor's reader loop
(`ParDecompress::run`, src/par/decompress.rs), for the BGZF format
(`HEADER_SIZE = 18`).  `read_exact` on a `HEADER_SIZE` buffer succeeds
exactly when that many bytes remain; the code breaks out of the loop —
treating it as EOF — whenever the header read fails, and propagates an
error only from the payload read after a complete header. -/

def bgzfReaderLoopF : Nat → List Nat → Except GzpErr (List (List Nat))
  | 0, _ => Except.ok []
  | Nat.succ n, src =>
    if 18 ≤ src.length then
      (bgzfCheckHeader (src.take 18)).bind fun _ =>
        if bgzfGetBlockSize (src.take 18) - 18 ≤ (src.drop 18).length then
          (bgzfReaderLoopF n
              ((src.drop 18).drop (bgzfGetBlockSize (src.take 18) - 18))).bind
            fun tail =>
              Except.ok
                ((src.drop 18).take (bgzfGetBlockSize (src.take 18) - 18)
                  :: tail)
        else Except.error GzpErr.ioUnexpectedEof
    else Except.ok []

/-- The reader loop on a source list.  The fuel `src.length` is an upper
bound on the number of iterations, since every iteration consumes at
least the 18 header bytes; when the fuel hits zero the remaining source
is empty (the invariant `src.length ≤ fuel` is preserved: a recursive
call drops at least 18 bytes and one fuel), and an empty source is
exactly the loop's clean-EOF exit, so the fuel never changes the
result. -/
def bgzfReaderLoop (src : List Nat) : Except GzpErr (List (List Nat)) :=
  bgzfReaderLoopF src.length src

/-- C9 counterexample: five bytes — a partial header — at the start of the
stream make the reader loop exit cleanly (no error), where the claim says
a partial header read must surface an error. -/
theorem bgzfReaderLoop_partial_header_counterexample :
    bgzfReaderLoop (List.replicate 5 0) = Except.ok [] := by
  rfl

/-- C9 amended: whenever fewer than `HEADER_SIZE = 18` bytes remain at a
block boundary — zero bytes (EOF) or a partial header alike — the reader
loop exits cleanly without error; only payload truncation after a
complete header errors. -/
theorem bgzfReaderLoop_short_header_clean_exit (src : List Nat)
    (h : src.length < 18) : bgzfReaderLoop src = Except.ok [] := by
  unfold bgzfReaderLoop
  cases hl : src.length with
  | zero => rfl
  | succ n =>
    simp only [bgzfReaderLoopF]
    rw [if_neg (by omega)]

/-- Witness for `bgzfReaderLoop_short_header_clean_exit` on a three-byte
source. -/
theorem bgzfReaderLoop_short_header_clean_exit_witness :
    ([1, 2, 3] : List Nat).length < 18
      ∧ bgzfReaderLoop [1, 2, 3] = Except.ok [] :=
  ⟨by decide, bgzfReaderLoop_short_header_clean_exit [1, 2, 3] (by decide)⟩

/-! ### The synchronous BGZF writer (`BgzfSyncWriter`, src/bgzf.rs) -/

/-- `Bgzf::encode` (src/deflate.rs): compress the block, appending the
28-byte EOF sentinel when this is the last block.  This is the parallel
compressor's per-block encoder. -/
def bgzfEncodeFmt (deflate : List Nat → List Nat) (lvl : Nat)
    (input : List Nat) (isLast : Bool) : Except GzpErr (List Nat) :=
  (bgzfCompress deflate lvl input).bind fun bytes =>
    Except.ok (if isLast then bytes ++ bgzfEofBytes else bytes)

/-- `BgzfSyncWriter::write`: append the caller's bytes to the internal
buffer; if the buffer has reached `blocksize`, split off one block,
compress it, and write it out.  Result: (new buffer, bytes written to the
inner writer). -/
def bgzfSyncWrite (deflate : List Nat → List Nat) (lvl bsize : Nat)
    (buffer input : List Nat) : Except GzpErr (List Nat × List Nat) :=
  if bsize ≤ (buffer ++ input).length then
    (bgzfCompress deflate lvl ((buffer ++ input).take bsize)).bind
      fun compressed =>
        Except.ok ((buffer ++ input).drop bsize, compressed)
  else Except.ok (buffer ++ input, [])

/-- `BgzfSyncWriter::flush`: while the buffer is not empty, split off at
most `BGZF_BLOCK_SIZE = 65280` bytes, compress them, write them out, and
write the `BGZF_EOF` sentinel — inside the loop, once per drained block;
an empty buffer writes nothing at all. -/
def bgzfSyncFlush (deflate : List Nat → List Nat) (lvl : Nat)
    (buffer : List Nat) : Except GzpErr (List Nat) :=
  if h : buffer = [] then Except.ok []
  else
    (bgzfCompress deflate lvl (buffer.take (min buffer.length 65280))).bind
      fun compressed =>
        (bgzfSyncFlush deflate lvl
            (buffer.drop (min buffer.length 65280))).bind fun rest =>
          Except.ok (compressed ++ bgzfEofBytes ++ rest)
termination_by buffer.length
decreasing_by
  simp only [List.length_drop]
  have hl := List.length_pos.mpr h
  omega

/-- Writing a fresh `BgzfSyncWriter`'s whole input with one `write` call
and then flushing (what `drop` also performs). -/
def bgzfSyncWriteFlush (deflate : List Nat → List Nat) (lvl bsize : Nat)
    (input : List Nat) : Except GzpErr (List Nat) :=
  (bgzfSyncWrite deflate lvl bsize [] input).bind fun wr =>
    (bgzfSyncFlush deflate lvl wr.1).bind fun fl =>
      Except.ok (wr.2 ++ fl)

/-- Does a produced stream end in the 28-byte BGZF EOF sentinel? -/
def endsWithBgzfEof : Except GzpErr (List Nat) → Bool
  | Except.ok o => o.drop (o.length - 28) == bgzfEofBytes
  | Except.error _ => false

theorem bgzfSyncFlush_nil (deflate : List Nat → List Nat) (lvl : Nat) :
    bgzfSyncFlush deflate lvl [] = Except.ok [] := by
  rw [bgzfSyncFlush, dif_pos rfl]

theorem bgzfSyncWrite_exact_block (deflate : List Nat → List Nat)
    (lvl bsize : Nat) (input : List Nat) (hlen : input.length = bsize)
    (hc : (deflate input).length < 65536) :
    bgzfSyncWrite deflate lvl bsize [] input
      = Except.ok ([], bgzfBlockBytes deflate lvl input) := by
  unfold bgzfSyncWrite
  rw [List.nil_append, if_pos (by omega), List.take_of_length_le (by omega),
    List.drop_eq_nil_of_le (by omega), bgzfCompress_eq_ok deflate lvl input hc,
    ok_bind]

/-- C4 evaluated at the failing input: a `BgzfSyncWriter` with block size
5, fed exactly one full block `[1,2,3,4,5]` and flushed, succeeds but its
output does not end in the BGZF EOF sentinel — `write` drained the
buffer, so `flush`'s loop body (which is what writes the sentinel) never
ran.  The default block size 65280 with a 65280-byte input behaves the
same way. -/
theorem bgzfSyncWriter_flush_missing_eof :
    (bgzfSyncWriteFlush (fun l => l) 3 5 [1, 2, 3, 4, 5]).isOk = true
      ∧ endsWithBgzfEof (bgzfSyncWriteFlush (fun l => l) 3 5 [1, 2, 3, 4, 5])
        = false := by
  have hw := bgzfSyncWrite_exact_block (fun l => l) 3 5 [1, 2, 3, 4, 5]
    (by decide) (by decide)
  have heq : bgzfSyncWriteFlush (fun l => l) 3 5 [1, 2, 3, 4, 5]
      = Except.ok (bgzfBlockBytes (fun l => l) 3 [1, 2, 3, 4, 5] ++ []) := by
    unfold bgzfSyncWriteFlush
    rw [hw, ok_bind]
    dsimp only
    rw [bgzfSyncFlush_nil, ok_bind]
  rw [heq]
  exact ⟨rfl, by decide⟩

/-! ### The BGZF block-size guard (C5) -/

/-- Length of the block a compression call produced, zero on error. -/
def exceptOkLength : Except GzpErr (List Nat) → Nat
  | Except.ok o => o.length
  | Except.error _ => 0

theorem bgzfBlockBytes_length (deflate : List Nat → List Nat) (lvl : Nat)
    (x : List Nat) :
    (bgzfBlockBytes deflate lvl x).length = 26 + (deflate x).length := by
  unfold bgzfBlockBytes
  simp only [List.length_append, bgzfHeaderInner_length, length_u32le]
  omega

/-- C5 counterexample: a block whose deflate payload is 65,520 bytes is
accepted by `bgzf::compress` — the guard compares the bare payload, not
the framed block, against 65,536 — and the framed block it produces is
65,546 bytes, which exceeds the claimed 65,536-byte framed cap. -/
theorem bgzfCompress_framed_cap_counterexample :
    (bgzfCompress (fun _ => List.replicate 65520 0) 3 [0]).isOk = true
      ∧ exceptOkLength (bgzfCompress (fun _ => List.replicate 65520 0) 3 [0])
        = 65546
      ∧ 65536 < 65546 := by
  have hc := bgzfCompress_eq_ok (fun _ => List.replicate 65520 0) 3 [0]
    (by rw [List.length_replicate]; omega)
  rw [hc]
  refine ⟨rfl, ?_, by norm_num⟩
  show (bgzfBlockBytes (fun _ => List.replicate 65520 0) 3 [0]).length = 65546
  rw [bgzfBlockBytes_length, List.length_replicate]

/-- C5 amended: `bgzf::compress` fails — with `BlockSizeExceeded` naming
the payload length and the 65,536 cap — exactly when the bare deflate
payload is at least 65,536 bytes; the 18-byte header and 8-byte footer
are not counted by the guard, so a successfully produced framed block has
`26 + payload` bytes and can reach 65,561 bytes.  An input block (such as
the 65,280-byte BGZF maximum) is accepted precisely when its payload
deflates to under 64 KiB. -/
theorem bgzfCompress_guard (deflate : List Nat → List Nat) (lvl : Nat)
    (x : List Nat) :
    ((bgzfCompress deflate lvl x).isOk = true ↔ (deflate x).length < 65536)
      ∧ (bgzfCompress deflate lvl x
          = Except.error (GzpErr.blockSizeExceeded (deflate x).length 65536)
          ↔ 65536 ≤ (deflate x).length)
      ∧ exceptOkLength (bgzfCompress deflate lvl x)
        = (if (deflate x).length < 65536 then 26 + (deflate x).length else 0)
      ∧ exceptOkLength (bgzfCompress deflate lvl x) ≤ 65561 := by
  by_cases h : (deflate x).length < 65536
  · rw [bgzfCompress_eq_ok deflate lvl x h]
    refine ⟨⟨fun _ => h, fun _ => rfl⟩, ⟨fun hcontra => ?_, fun hge => ?_⟩,
      ?_, ?_⟩
    · exact absurd hcontra (by simp)
    · omega
    · rw [if_pos h]
      exact bgzfBlockBytes_length deflate lvl x
    · rw [show exceptOkLength (Except.ok (bgzfBlockBytes deflate lvl x))
          = (bgzfBlockBytes deflate lvl x).length from rfl,
        bgzfBlockBytes_length]
      omega
  · have herr : bgzfCompress deflate lvl x
        = Except.error (GzpErr.blockSizeExceeded (deflate x).length 65536) := by
      simp only [bgzfCompress]
      rw [if_neg h]
    rw [herr]
    refine ⟨⟨fun hcontra => ?_, fun hlt => absurd hlt h⟩,
      ⟨fun _ => by omega, fun _ => rfl⟩, ?_, ?_⟩
    · exact absurd hcontra (by simp [Except.isOk, Except.toBool])
    · rw [if_neg h]
      rfl
    · show (0 : Nat) ≤ 65561
      omega

/-! ### Per-format encode behaviour (C6) -/

/-- The two DEFLATE flush modes the pipeline uses. -/
inductive FlushMode where
  | sync
  | finish
  deriving DecidableEq

/-- The observable codec interaction of one `FormatSpec::encode` call:
whether (and with what) `set_dictionary` was called before compressing,
the flush mode passed to `compress_vec`, and whether the codec was reset
afterwards. -/
structure EncTrace where
  dictSet : Option (List Nat)
  flush : FlushMode
  didReset : Bool
  deriving DecidableEq

/-- `Gzip::encode` (src/deflate.rs, `any_zlib` build): set the dictionary
when provided, deflate with `Finish` on the last block else `Sync`, reset
the codec after producing the output. -/
def gzipEncodeTrace (dict : Option (List Nat)) (isLast : Bool) : EncTrace :=
  ⟨dict, if isLast then FlushMode.finish else FlushMode.sync, true⟩

/-- `Zlib::encode` (src/deflate.rs): same shape as `Gzip::encode`. -/
def zlibEncodeTrace (dict : Option (List Nat)) (isLast : Bool) : EncTrace :=
  ⟨dict, if isLast then FlushMode.finish else FlushMode.sync, true⟩

/-- `RawDeflate::encode` (src/deflate.rs): the dictionary and the reset
behave like gzip, but the flush mode is always `Sync` — the `is_last`
flag is ignored (the source marks the spot with
`TODO: finish? on last block?`). -/
def rawDeflateEncodeTrace (dict : Option (List Nat)) (isLast : Bool) :
    EncTrace :=
  ⟨dict, FlushMode.sync, true⟩

/-- C6 counterexample: on the last block (`is_last = true`)
`RawDeflate::encode` deflates with `Sync`, not the `Finish` flush the
claim requires of all three formats. -/
theorem rawDeflate_last_flush_counterexample :
    (rawDeflateEncodeTrace none true).flush = FlushMode.sync
      ∧ FlushMode.sync ≠ FlushMode.finish := by
  exact ⟨rfl, by decide⟩

/-- C6 amended: `Gzip::encode` and `Zlib::encode` deflate with `Finish`
exactly on the last block and `Sync` otherwise; `RawDeflate::encode`
always uses `Sync`, even on the last block; all three set the dictionary
on the codec exactly when one is provided and reset the codec after
producing the output. -/
theorem encode_flush_dict_reset (dict : Option (List Nat)) (isLast : Bool) :
    gzipEncodeTrace dict isLast
        = ⟨dict, if isLast then FlushMode.finish else FlushMode.sync, true⟩
      ∧ zlibEncodeTrace dict isLast
        = ⟨dict, if isLast then FlushMode.finish else FlushMode.sync, true⟩
      ∧ rawDeflateEncodeTrace dict isLast = ⟨dict, FlushMode.sync, true⟩ :=
  ⟨rfl, rfl, rfl⟩

/-! ### The gzip stream header (C7) -/

/-- The header the claim describes, following its words: `XF = 2` when the
level is the best level (9), `4` when it is the fast level (1), else `0`
— including level 0. -/
def gzipHeaderClaimed (lvl : Nat) : List Nat :=
  [31, 139, 8, 0, 0, 0, 0, 0, if lvl = 9 then 2 else if lvl = 1 then 4 else 0,
   255]

theorem compValue_mod256 (lvl : Nat) : compValue lvl % 256 = compValue lvl := by
  unfold compValue
  split_ifs <;> rfl

/-- C7 counterexample: at level 0 `Gzip::header` writes `XF = 4` (the
code tests `level <= fast`), not the `0` the claim assigns to every level
other than 9 and 1. -/
theorem gzipHeader_level_zero_counterexample :
    gzipHeader 0 ≠ gzipHeaderClaimed 0 := by
  decide

/-- C7 amended: for every level, `Gzip::header` returns exactly the ten
bytes `1f 8b 08 00 00 00 00 00 XF ff` where `XF` is 2 for levels at or
above the best level 9, 4 for levels at or below the fast level 1
(level 0 included), and 0 otherwise. -/
theorem gzipHeader_eq (lvl : Nat) :
    gzipHeader lvl
      = [31, 139, 8, 0, 0, 0, 0, 0,
         if 9 ≤ lvl then 2 else if lvl ≤ 1 then 4 else 0, 255] := by
  have hcv : (if 9 ≤ lvl then 2 else if lvl ≤ 1 then 4 else 0) = compValue lvl :=
    rfl
  rw [hcv]
  unfold gzipHeader toBytes
  simp [pairBytes, leBytes, List.range_succ, compValue_mod256]

end Gzp
